import Mathlib

/-!
Verification of the page-range parsing and document-assembly functions of
`split_pdf.py` (a PDF page splitter).

The embedding models:
  * Python string helpers used by the source (`str.split`, `str.strip`,
    `int(...)`) over `List Char`;
  * `parse_page_ranges` (merged, sorted, deduplicated zero-based index list);
  * `parse_multiple_ranges` (ordered `(label, indices)` pairs, one per token);
  * `split_pdf` (single-output assembly with bounds validation);
  * `split_pdf_multiple` (multi-output assembly, one file per sub-range).

A source document is modelled as a `List α` of its pages, in order.  File
system effects are modelled by the result values: `Except`/`MultiResult`
carry exactly the documents that the source writes to disk, so "no output
file is written" corresponds to an error result carrying no document, and
the multi-mode absence of rollback corresponds to `failedAfter` carrying the
files already written before the failure.  The `FileNotFoundError` branch
(a filesystem existence check on the input path) is outside the embedding:
all claims below presuppose an existing, loaded document.
-/

namespace SplitPdf

/-- Characters removed by Python's `str.strip()` (ASCII whitespace). -/
def isPySpace (c : Char) : Bool :=
  c = ' ' || c = '\t' || c = '\n' || c = '\r' || c = '\x0b' || c = '\x0c'

/-- Python's `s.split(sep)` for a one-character separator: splits at every
occurrence of `sep`; the empty string yields `[[]]`. -/
def pySplit (sep : Char) : List Char → List (List Char)
  | [] => [[]]
  | c :: cs =>
    if c = sep then [] :: pySplit sep cs
    else
      match pySplit sep cs with
      | [] => [[c]]
      | t :: ts => (c :: t) :: ts

/-- Python's `s.strip()`: drop leading and trailing whitespace. -/
def pyStrip (s : List Char) : List Char :=
  ((s.dropWhile isPySpace).reverse.dropWhile isPySpace).reverse

/-- Value of a nonempty all-digit string, `none` otherwise. -/
def pyDigits? (l : List Char) : Option Nat :=
  if l ≠ [] ∧ l.all Char.isDigit then
    some (l.foldl (fun a c => a * 10 + (c.toNat - 48)) 0)
  else none

/-- Python's `int(s)`: strip whitespace, optional sign, then digits;
`none` models the `ValueError` that `int` raises on anything else. -/
def pyInt? (s : List Char) : Option Int :=
  match pyStrip s with
  | '-' :: rest => (pyDigits? rest).map (fun n => -(n : Int))
  | '+' :: rest => (pyDigits? rest).map (fun n => (n : Int))
  | t => (pyDigits? t).map (fun n => (n : Int))

/-- Python's `range(a, b + 1)` as a list: the integers from `a` to `b`
inclusive, empty when `a > b`. -/
def intRangeIncl (a b : Int) : List Int :=
  (List.range (b + 1 - a).toNat).map (fun (k : Nat) => a + (k : Int))

/-- Body of the token loop of `parse_page_ranges` (split_pdf.py lines
38-54): a token containing `-` must split into exactly two `int`-parsable
operands and contributes the zero-based inclusive interval; any other token
is a single `int` and contributes its zero-based value.  `none` models the
`ValueError` raised on a malformed token. -/
def rangeTokenPages (t : List Char) : Option (List Int) :=
  if '-' ∈ t then
    match pySplit '-' t with
    | [s1, s2] =>
      match pyInt? s1, pyInt? s2 with
      | some a, some b => some ((intRangeIncl a b).map (fun v => v - 1))
      | _, _ => none
    | _ => none
  else
    (pyInt? t).map (fun v => [v - 1])

/-- The token loop of `parse_page_ranges`: strip each comma-separated token
and accumulate its pages; the first malformed token aborts the parse. -/
def parseAllTokens : List (List Char) → Option (List Int)
  | [] => some []
  | tok :: rest =>
    match rangeTokenPages (pyStrip tok) with
    | none => none
    | some pages =>
      match parseAllTokens rest with
      | none => none
      | some acc => some (pages ++ acc)

/-- Insert into a strictly ascending list, keeping it strictly ascending
(duplicates are dropped). -/
def insertSorted (x : Int) : List Int → List Int
  | [] => [x]
  | y :: ys =>
    if x < y then x :: y :: ys
    else if x = y then y :: ys
    else y :: insertSorted x ys

/-- Model of Python's `sorted(list(set(l)))`: the distinct values of `l` in
ascending order. -/
def sortDedup (l : List Int) : List Int :=
  l.foldr insertSorted []

/-- Model of `parse_page_ranges` (split_pdf.py lines 16-57): split the
range string on commas, parse every token, and return the merged,
deduplicated, ascending list of zero-based page indices; `none` models the
exception raised on a malformed token. -/
def parse_page_ranges (s : String) : Option (List Int) :=
  (parseAllTokens (pySplit ',' s.data)).map sortDedup

/-- Body of the token loop of `parse_multiple_ranges` (split_pdf.py lines
133-145); the source duplicates the token logic of `parse_page_ranges`
verbatim, so this definition repeats it. -/
def multiTokenPages (t : List Char) : Option (List Int) :=
  if '-' ∈ t then
    match pySplit '-' t with
    | [s1, s2] =>
      match pyInt? s1, pyInt? s2 with
      | some a, some b => some ((intRangeIncl a b).map (fun v => v - 1))
      | _, _ => none
    | _ => none
  else
    (pyInt? t).map (fun v => [v - 1])

/-- The token loop of `parse_multiple_ranges`: each stripped token yields a
`(label, pages)` pair, in token order. -/
def parseTokensMulti : List (List Char) → Option (List (String × List Int))
  | [] => some []
  | tok :: rest =>
    match multiTokenPages (pyStrip tok) with
    | none => none
    | some pages =>
      match parseTokensMulti rest with
      | none => none
      | some acc => some ((String.mk (pyStrip tok), pages) :: acc)

/-- Model of `parse_multiple_ranges` (split_pdf.py lines 109-149): one
`(label, indices)` pair per comma-separated token, in input order, the
label being the stripped token text. -/
def parse_multiple_ranges (s : String) : Option (List (String × List Int)) :=
  parseTokensMulti (pySplit ',' s.data)

/-- The validation loop of `split_pdf` / `split_pdf_multiple`: the first
page index that is negative or not below the page count, if any. -/
def firstBadPage (total : Nat) : List Int → Option Int
  | [] => none
  | p :: ps =>
    if p < 0 ∨ (total : Int) ≤ p then some p else firstBadPage total ps

/-- The writer loop: the pages of the source document at the given
zero-based indices, in the given order (only used with validated
indices). -/
def extractPages [Inhabited α] (doc : List α) (pages : List Int) : List α :=
  pages.map (fun p => doc.getD p.toNat default)

/-- Model of `split_pdf` (split_pdf.py lines 60-106) on a loaded document:
validate every index against the page count, then write one output document
with the selected pages.  `Except.error (p, n)` models the `ValueError`
whose message cites the offending 1-based page number `p` and the total
page count `n`, raised before any output is written; `Except.ok out`
models the single output file, with pages `out`. -/
def split_pdf [Inhabited α] (doc : List α) (pages : List Int) :
    Except (Int × Nat) (List α) :=
  match firstBadPage doc.length pages with
  | some p => .error (p + 1, doc.length)
  | none => .ok (extractPages doc pages)

/-- Result of a multi-output invocation: a parse failure (before any file
is written), a range failure after some files were already written (they
stay on disk: no rollback), or success.  Each written file is a
`(filename, pages)` pair, in write order. -/
inductive MultiResult (α : Type) where
  | parseError : MultiResult α
  | failedAfter : List (String × List α) → Int × Nat → MultiResult α
  | ok : List (String × List α) → MultiResult α
deriving DecidableEq, Repr

/-- The per-sub-range loop of `split_pdf_multiple` (split_pdf.py lines
185-209): validate the sub-range's indices only when it is reached; on
failure, raise at once, keeping the files already written; otherwise write
`"{pre}_paginas_{label}.pdf"` and continue. -/
def splitMultiGo [Inhabited α] (doc : List α) (pre : String) :
    List (String × List Int) → MultiResult α
  | [] => .ok []
  | (label, pages) :: rest =>
    match firstBadPage doc.length pages with
    | some p => .failedAfter [] (p + 1, doc.length)
    | none =>
      match splitMultiGo doc pre rest with
      | .parseError => .parseError
      | .failedAfter ws e =>
          .failedAfter ((pre ++ "_paginas_" ++ label ++ ".pdf",
            extractPages doc pages) :: ws) e
      | .ok ws =>
          .ok ((pre ++ "_paginas_" ++ label ++ ".pdf",
            extractPages doc pages) :: ws)

/-- Model of `split_pdf_multiple` (split_pdf.py lines 152-214) on a loaded
document: parse the range string into sub-ranges, then process them in
order. -/
def split_pdf_multiple [Inhabited α] (doc : List α) (ranges_str : String)
    (pre : String) : MultiResult α :=
  match parse_multiple_ranges ranges_str with
  | none => .parseError
  | some rl => splitMultiGo doc pre rl

/-- A token on which the source's token loop raises: either it contains
`-` but does not split into exactly two `int`-parsable operands, or it
contains no `-` and is not `int`-parsable. -/
def tokenMalformed (t : List Char) : Bool :=
  if '-' ∈ t then
    match pySplit '-' t with
    | [s1, s2] => (pyInt? s1).isNone || (pyInt? s2).isNone
    | _ => true
  else (pyInt? t).isNone

/-! ### Helper lemmas on the sorted-set model -/

theorem mem_insertSorted (a x : Int) (l : List Int) :
    a ∈ insertSorted x l ↔ a = x ∨ a ∈ l := by
  induction l with
  | nil => simp [insertSorted]
  | cons y ys ih =>
    rw [insertSorted]
    by_cases h1 : x < y
    · rw [if_pos h1]
      simp only [List.mem_cons]
    · rw [if_neg h1]
      by_cases h2 : x = y
      · rw [if_pos h2]
        subst h2
        simp only [List.mem_cons]
        tauto
      · rw [if_neg h2]
        simp only [List.mem_cons, ih]
        tauto

theorem pairwise_insertSorted (x : Int) (l : List Int)
    (h : l.Pairwise (· < ·)) : (insertSorted x l).Pairwise (· < ·) := by
  induction l with
  | nil => simp [insertSorted]
  | cons y ys ih =>
    rw [List.pairwise_cons] at h
    obtain ⟨hy, hys⟩ := h
    by_cases h1 : x < y
    · rw [insertSorted, if_pos h1, List.pairwise_cons]
      constructor
      · intro z hz
        rcases List.mem_cons.mp hz with hz | hz
        · exact hz ▸ h1
        · exact lt_trans h1 (hy z hz)
      · exact List.pairwise_cons.mpr ⟨hy, hys⟩
    · by_cases h2 : x = y
      · rw [insertSorted, if_neg h1, if_pos h2]
        exact List.pairwise_cons.mpr ⟨hy, hys⟩
      · rw [insertSorted, if_neg h1, if_neg h2, List.pairwise_cons]
        constructor
        · intro z hz
          rcases (mem_insertSorted z x ys).mp hz with hz | hz
          · subst hz
            exact lt_of_le_of_ne (not_lt.mp h1) (Ne.symm h2)
          · exact hy z hz
        · exact ih hys

theorem pairwise_sortDedup (l : List Int) :
    (sortDedup l).Pairwise (· < ·) := by
  induction l with
  | nil => simp [sortDedup]
  | cons x xs ih => exact pairwise_insertSorted x _ ih

theorem mem_sortDedup (a : Int) (l : List Int) :
    a ∈ sortDedup l ↔ a ∈ l := by
  induction l with
  | nil => simp [sortDedup]
  | cons x xs ih =>
    show a ∈ insertSorted x (sortDedup xs) ↔ _
    rw [mem_insertSorted, ih, List.mem_cons]

theorem nodup_sortDedup (l : List Int) : (sortDedup l).Nodup :=
  (pairwise_sortDedup l).imp ne_of_lt

/-! ### Helper lemmas on the parsers -/

theorem multiTokenPages_eq_rangeTokenPages :
    multiTokenPages = rangeTokenPages := rfl

theorem parseAllTokens_mem (toks : List (List Char)) (l : List Int)
    (h : parseAllTokens toks = some l) (x : Int) :
    x ∈ l ↔ ∃ tok ∈ toks, ∃ idxs,
      rangeTokenPages (pyStrip tok) = some idxs ∧ x ∈ idxs := by
  induction toks generalizing l with
  | nil =>
    rw [parseAllTokens] at h
    injection h with h
    subst h
    simp
  | cons tok rest ih =>
    rw [parseAllTokens] at h
    cases hr : rangeTokenPages (pyStrip tok) with
    | none => rw [hr] at h; cases h
    | some pages =>
      rw [hr] at h
      cases ha : parseAllTokens rest with
      | none => rw [ha] at h; cases h
      | some acc =>
        rw [ha] at h
        injection h with h
        subst h
        simp only [List.mem_append, List.mem_cons]
        constructor
        · intro hx
          rcases hx with hx | hx
          · exact ⟨tok, Or.inl rfl, pages, hr, hx⟩
          · obtain ⟨t, ht, idxs, hi, hxi⟩ := (ih acc ha).mp hx
            exact ⟨t, Or.inr ht, idxs, hi, hxi⟩
        · rintro ⟨t, ht | ht, idxs, hi, hxi⟩
          · subst ht
            rw [hr] at hi
            injection hi with hi
            subst hi
            exact Or.inl hxi
          · exact Or.inr ((ih acc ha).mpr ⟨t, ht, idxs, hi, hxi⟩)

theorem parseAllTokens_eq_none (toks : List (List Char)) (tok : List Char)
    (h1 : tok ∈ toks) (h2 : rangeTokenPages (pyStrip tok) = none) :
    parseAllTokens toks = none := by
  induction toks with
  | nil => cases h1
  | cons t rest ih =>
    rw [parseAllTokens]
    rcases List.mem_cons.mp h1 with h | h
    · subst h
      rw [h2]
    · cases hr : rangeTokenPages (pyStrip t) with
      | none => rfl
      | some pages => rw [ih h]

theorem parseTokensMulti_forall₂ (toks : List (List Char))
    (rl : List (String × List Int)) (h : parseTokensMulti toks = some rl) :
    List.Forall₂ (fun tok pr => pr.1 = String.mk (pyStrip tok) ∧
      multiTokenPages (pyStrip tok) = some pr.2) toks rl := by
  induction toks generalizing rl with
  | nil =>
    rw [parseTokensMulti] at h
    injection h with h
    subst h
    exact List.Forall₂.nil
  | cons tok rest ih =>
    rw [parseTokensMulti] at h
    cases hm : multiTokenPages (pyStrip tok) with
    | none => rw [hm] at h; cases h
    | some pages =>
      rw [hm] at h
      cases ha : parseTokensMulti rest with
      | none => rw [ha] at h; cases h
      | some acc =>
        rw [ha] at h
        injection h with h
        subst h
        exact List.Forall₂.cons ⟨rfl, hm⟩ (ih acc ha)

theorem parseAllTokens_of_parseTokensMulti (toks : List (List Char))
    (rl : List (String × List Int)) (h : parseTokensMulti toks = some rl) :
    parseAllTokens toks = some (rl.map Prod.snd).flatten := by
  induction toks generalizing rl with
  | nil =>
    rw [parseTokensMulti] at h
    injection h with h
    subst h
    rfl
  | cons tok rest ih =>
    rw [parseTokensMulti] at h
    cases hm : multiTokenPages (pyStrip tok) with
    | none => rw [hm] at h; cases h
    | some pages =>
      rw [hm] at h
      cases ha : parseTokensMulti rest with
      | none => rw [ha] at h; cases h
      | some acc =>
        rw [ha] at h
        injection h with h
        subst h
        rw [parseAllTokens]
        have hr : rangeTokenPages (pyStrip tok) = some pages := hm
        rw [hr, ih acc ha]
        simp

theorem pairwise_intRangeIncl (a b : Int) :
    (intRangeIncl a b).Pairwise (· < ·) := by
  unfold intRangeIncl
  refine List.Pairwise.map _ ?_ (List.pairwise_lt_range ((b + 1 - a).toNat))
  intro i j hij
  show a + (i : Int) < a + (j : Int)
  omega

theorem pairwise_multiTokenPages (t : List Char) (pages : List Int)
    (h : multiTokenPages t = some pages) : pages.Pairwise (· < ·) := by
  unfold multiTokenPages at h
  by_cases hd : '-' ∈ t
  · rw [if_pos hd] at h
    split at h
    · split at h
      · injection h with h
        subst h
        refine List.Pairwise.map _ ?_ (pairwise_intRangeIncl _ _)
        intro i j hij
        show i - 1 < j - 1
        omega
      · cases h
    · cases h
  · rw [if_neg hd] at h
    obtain ⟨v, hv, hp⟩ := Option.map_eq_some'.mp h
    subst hp
    simp

theorem parseTokensMulti_pages (toks : List (List Char))
    (rl : List (String × List Int)) (h : parseTokensMulti toks = some rl) :
    ∀ pr ∈ rl, ∃ t, multiTokenPages t = some pr.2 := by
  induction toks generalizing rl with
  | nil =>
    rw [parseTokensMulti] at h
    injection h with h
    subst h
    intro pr hpr
    cases hpr
  | cons tok rest ih =>
    rw [parseTokensMulti] at h
    cases hm : multiTokenPages (pyStrip tok) with
    | none => rw [hm] at h; cases h
    | some pages =>
      rw [hm] at h
      cases ha : parseTokensMulti rest with
      | none => rw [ha] at h; cases h
      | some acc =>
        rw [ha] at h
        injection h with h
        subst h
        intro pr hpr
        rcases List.mem_cons.mp hpr with hpr | hpr
        · subst hpr
          exact ⟨pyStrip tok, hm⟩
        · exact ih acc ha pr hpr

theorem intRangeIncl_eq_nil (a b : Int) (h : b < a) : intRangeIncl a b = [] := by
  unfold intRangeIncl
  rw [Int.toNat_eq_zero.mpr (by omega)]
  rfl

theorem rangeTokenPages_eq_none_of_malformed (t : List Char)
    (h : tokenMalformed t = true) : rangeTokenPages t = none := by
  unfold tokenMalformed at h
  unfold rangeTokenPages
  by_cases hd : '-' ∈ t
  · rw [if_pos hd] at h ⊢
    split
    · rename_i s1 s2 heq
      rw [heq] at h
      have h' : ((pyInt? s1).isNone || (pyInt? s2).isNone) = true := h
      cases hx : pyInt? s1 with
      | none => rfl
      | some a =>
        cases hy : pyInt? s2 with
        | none => rfl
        | some b =>
          rw [hx, hy] at h'
          simp at h'
    · rfl
  · rw [if_neg hd] at h ⊢
    rw [Option.isNone_iff_eq_none.mp h]
    rfl

/-! ### Helper lemmas on the assemblers -/

theorem firstBadPage_eq_none (total : Nat) (pages : List Int)
    (h : ∀ i ∈ pages, 0 ≤ i ∧ i < (total : Int)) :
    firstBadPage total pages = none := by
  induction pages with
  | nil => rfl
  | cons p ps ih =>
    rw [firstBadPage]
    have hp := h p (List.mem_cons_self p ps)
    rw [if_neg (by omega)]
    exact ih (fun i hi => h i (List.mem_cons_of_mem p hi))

theorem firstBadPage_some_of_bad (total : Nat) (pages : List Int)
    (h : ∃ i ∈ pages, i < 0 ∨ (total : Int) ≤ i) :
    ∃ p, firstBadPage total pages = some p ∧ p ∈ pages ∧
      (p < 0 ∨ (total : Int) ≤ p) := by
  induction pages with
  | nil => simp at h
  | cons q ps ih =>
    rw [firstBadPage]
    by_cases hq : q < 0 ∨ (total : Int) ≤ q
    · exact ⟨q, by rw [if_pos hq], List.mem_cons_self q ps, hq⟩
    · rw [if_neg hq]
      have h' : ∃ i ∈ ps, i < 0 ∨ (total : Int) ≤ i := by
        obtain ⟨i, hi, hbad⟩ := h
        rcases List.mem_cons.mp hi with hi | hi
        · subst hi
          exact absurd hbad hq
        · exact ⟨i, hi, hbad⟩
      obtain ⟨p, hfp, hmem, hbad⟩ := ih h'
      exact ⟨p, hfp, List.mem_cons_of_mem q hmem, hbad⟩

theorem getElem?_extractPages [Inhabited α] (doc : List α) (pages : List Int)
    (k : Nat) (hk : k < pages.length)
    (hvalid : ∀ i ∈ pages, 0 ≤ i ∧ i < (doc.length : Int)) :
    (extractPages doc pages)[k]? = doc[(pages.get ⟨k, hk⟩).toNat]? := by
  unfold extractPages
  rw [List.getElem?_map, List.getElem?_eq_getElem hk]
  have hp := hvalid (pages.get ⟨k, hk⟩) (List.get_mem pages k hk)
  have hlt : (pages.get ⟨k, hk⟩).toNat < doc.length := by omega
  rw [List.getElem?_eq_getElem hlt]
  simp only [Option.map_some', List.get_eq_getElem]
  rw [List.getD_eq_getElem?_getD]
  rw [List.getElem?_eq_getElem (show pages[k].toNat < doc.length from hlt)]
  rfl

theorem getD_range_eq_self [Inhabited α] (l : List α) :
    (List.range l.length).map (fun k => l.getD k default) = l := by
  induction l with
  | nil => rfl
  | cons a tl ih =>
    show (List.range (tl.length + 1)).map _ = _
    rw [List.range_succ_eq_map, List.map_cons, List.map_map]
    have : ((fun k => (a :: tl).getD k default) ∘ Nat.succ) =
        (fun k => tl.getD k default) := by
      funext k
      rfl
    rw [this, ih]
    rfl

theorem extractPages_range [Inhabited α] (doc : List α) :
    extractPages doc ((List.range doc.length).map (fun (k : Nat) => (k : Int)))
      = doc := by
  unfold extractPages
  rw [List.map_map]
  have : ((fun p => doc.getD p.toNat default) ∘ (fun (k : Nat) => (k : Int))) =
      (fun k => doc.getD k default) := by
    funext k
    simp
  rw [this, getD_range_eq_self]

theorem splitMultiGo_ok_of_valid [Inhabited α] (doc : List α) (pre : String)
    (rl : List (String × List Int))
    (h : ∀ pr ∈ rl, ∀ i ∈ pr.2, 0 ≤ i ∧ i < (doc.length : Int)) :
    splitMultiGo doc pre rl = .ok (rl.map (fun pr =>
      (pre ++ "_paginas_" ++ pr.1 ++ ".pdf", extractPages doc pr.2))) := by
  induction rl with
  | nil => rfl
  | cons pr rest ih =>
    obtain ⟨label, pages⟩ := pr
    rw [splitMultiGo]
    rw [firstBadPage_eq_none doc.length pages
      (h (label, pages) (List.mem_cons_self _ _))]
    rw [ih (fun q hq => h q (List.mem_cons_of_mem _ hq))]
    rfl

theorem splitMultiGo_ok_names [Inhabited α] (doc : List α) (pre : String)
    (rl : List (String × List Int)) (ws : List (String × List α))
    (h : splitMultiGo doc pre rl = .ok ws) :
    ws.map Prod.fst = rl.map (fun pr => pre ++ "_paginas_" ++ pr.1 ++ ".pdf") := by
  induction rl generalizing ws with
  | nil =>
    rw [splitMultiGo] at h
    injection h with h
    subst h
    rfl
  | cons pr rest ih =>
    obtain ⟨label, pages⟩ := pr
    rw [splitMultiGo] at h
    cases hb : firstBadPage doc.length pages with
    | some p => rw [hb] at h; cases h
    | none =>
      rw [hb] at h
      cases hgo : splitMultiGo doc pre rest with
      | parseError => rw [hgo] at h; cases h
      | failedAfter ws' e => rw [hgo] at h; cases h
      | ok ws' =>
        rw [hgo] at h
        injection h with h
        subst h
        rw [List.map_cons, List.map_cons, ih ws' hgo]

theorem splitMultiGo_failedAfter [Inhabited α] (doc : List α) (pre : String)
    (good : List (String × List Int)) (label : String) (pages : List Int)
    (rest : List (String × List Int))
    (hgood : ∀ pr ∈ good, ∀ i ∈ pr.2, 0 ≤ i ∧ i < (doc.length : Int))
    (hbad : ∃ i ∈ pages, i < 0 ∨ (doc.length : Int) ≤ i) :
    ∃ p, p ∈ pages ∧ (p < 0 ∨ (doc.length : Int) ≤ p) ∧
      splitMultiGo doc pre (good ++ (label, pages) :: rest) =
        .failedAfter (good.map (fun pr =>
          (pre ++ "_paginas_" ++ pr.1 ++ ".pdf", extractPages doc pr.2)))
          (p + 1, doc.length) := by
  induction good with
  | nil =>
    obtain ⟨p, hfp, hmem, hbadp⟩ := firstBadPage_some_of_bad doc.length pages hbad
    refine ⟨p, hmem, hbadp, ?_⟩
    rw [List.nil_append, splitMultiGo, hfp]
    rfl
  | cons g gs ih =>
    obtain ⟨glabel, gpages⟩ := g
    obtain ⟨p, hmem, hbadp, hgo⟩ :=
      ih (fun q hq => hgood q (List.mem_cons_of_mem _ hq))
    refine ⟨p, hmem, hbadp, ?_⟩
    rw [List.cons_append, splitMultiGo]
    rw [firstBadPage_eq_none doc.length gpages
      (hgood (glabel, gpages) (List.mem_cons_self _ _))]
    rw [hgo]
    rfl

/-! ### Claim theorems -/

/-- Claim C1: for every valid range string, `parse_page_ranges` returns a
strictly ascending list of zero-based indices with no duplicates, whose
members are exactly the union over all comma-separated tokens of the
token's zero-based contribution; in particular
`parse_page_ranges "1-3,5" = [0,1,2,4]` and `parse_page_ranges "10" = [9]`. -/
theorem parse_page_ranges_sorted_nodup_union (s : String) (l : List Int)
    (h : parse_page_ranges s = some l) :
    (List.Chain' (· < ·) l ∧ l.Nodup ∧
      ∀ x : Int, x ∈ l ↔ ∃ tok ∈ pySplit ',' s.data, ∃ idxs,
        rangeTokenPages (pyStrip tok) = some idxs ∧ x ∈ idxs) ∧
    parse_page_ranges "1-3,5" = some [0, 1, 2, 4] ∧
    parse_page_ranges "10" = some [9] := by
  refine ⟨?_, by decide, by decide⟩
  unfold parse_page_ranges at h
  obtain ⟨l0, hl0, hmap⟩ := Option.map_eq_some'.mp h
  subst hmap
  refine ⟨List.chain'_iff_pairwise.mpr (pairwise_sortDedup l0),
    nodup_sortDedup l0, ?_⟩
  intro x
  rw [mem_sortDedup, parseAllTokens_mem _ _ hl0 x]

theorem parse_page_ranges_sorted_nodup_union_witness :
    parse_page_ranges "1-3,5" = some [0, 1, 2, 4] ∧
    List.Chain' (· < ·) ([0, 1, 2, 4] : List Int) :=
  ⟨by decide, (parse_page_ranges_sorted_nodup_union "1-3,5" [0, 1, 2, 4]
    (by decide)).1.1⟩

/-- Claim C2: if any requested index is out of bounds, `split_pdf` fails
with an error citing the offending 1-based page number and the page count,
and writes no output document; in particular for requested 1-based page
`N + 1` (index `N`) and requested page `0` (index `-1`). -/
theorem split_pdf_out_of_range_error {α : Type} [Inhabited α]
    (doc : List α) (pages : List Int)
    (h : ∃ i ∈ pages, i < 0 ∨ (doc.length : Int) ≤ i) :
    (∃ p, p ∈ pages ∧ (p < 0 ∨ (doc.length : Int) ≤ p) ∧
        split_pdf doc pages = .error (p + 1, doc.length) ∧
        ∀ out, split_pdf doc pages ≠ .ok out) ∧
    split_pdf ([10, 20, 30] : List Nat) [3] = .error (4, 3) ∧
    split_pdf ([10, 20, 30] : List Nat) [-1] = .error (0, 3) := by
  refine ⟨?_, rfl, rfl⟩
  obtain ⟨p, hfp, hmem, hbad⟩ := firstBadPage_some_of_bad doc.length pages h
  refine ⟨p, hmem, hbad, ?_, ?_⟩
  · unfold split_pdf
    rw [hfp]
  · intro out hc
    unfold split_pdf at hc
    rw [hfp] at hc
    cases hc

theorem split_pdf_out_of_range_error_witness :
    (∃ i ∈ ([3] : List Int), i < 0 ∨ ((([10, 20, 30] : List Nat).length : Int) ≤ i)) ∧
    split_pdf ([10, 20, 30] : List Nat) [3] = .error (4, 3) :=
  ⟨⟨3, by decide, by decide⟩,
    (split_pdf_out_of_range_error ([10, 20, 30] : List Nat) [3]
      ⟨3, by decide, by decide⟩).2.1⟩

/-- Claim C3: `parse_multiple_ranges` returns one `(label, indices)` pair
per comma-separated token in input order, the label being the token's
stripped original text and the indices the token's own zero-based list
(ascending within each token, never merged across tokens); in particular on
"1-2,3-12". -/
theorem parse_multiple_ranges_per_token (s : String)
    (rl : List (String × List Int)) (h : parse_multiple_ranges s = some rl) :
    (List.Forall₂ (fun tok pr => pr.1 = String.mk (pyStrip tok) ∧
        multiTokenPages (pyStrip tok) = some pr.2) (pySplit ',' s.data) rl ∧
      ∀ pr ∈ rl, List.Chain' (· < ·) pr.2) ∧
    parse_multiple_ranges "1-2,3-12" =
      some [("1-2", [0, 1]), ("3-12", [2, 3, 4, 5, 6, 7, 8, 9, 10, 11])] := by
  refine ⟨⟨parseTokensMulti_forall₂ _ _ h, ?_⟩, by decide⟩
  intro pr hpr
  obtain ⟨t, ht⟩ := parseTokensMulti_pages _ _ h pr hpr
  exact List.chain'_iff_pairwise.mpr (pairwise_multiTokenPages t pr.2 ht)

theorem parse_multiple_ranges_per_token_witness :
    parse_multiple_ranges "1-2,3-12" =
      some [("1-2", [0, 1]), ("3-12", [2, 3, 4, 5, 6, 7, 8, 9, 10, 11])] ∧
    ∀ pr ∈ ([("1-2", [0, 1]), ("3-12", [2, 3, 4, 5, 6, 7, 8, 9, 10, 11])] :
      List (String × List Int)), List.Chain' (· < ·) pr.2 :=
  ⟨by decide, (parse_multiple_ranges_per_token "1-2,3-12"
    [("1-2", [0, 1]), ("3-12", [2, 3, 4, 5, 6, 7, 8, 9, 10, 11])]
    (by decide)).1.2⟩

/-- Claim C4: when every requested index is in bounds, `split_pdf` writes
exactly one output document with one page per requested index, the k-th
output page being the source page at the k-th index of the list. -/
theorem split_pdf_valid_output {α : Type} [Inhabited α]
    (doc : List α) (pages : List Int)
    (h : ∀ i ∈ pages, 0 ≤ i ∧ i < (doc.length : Int)) :
    ∃ out, split_pdf doc pages = .ok out ∧ out.length = pages.length ∧
      ∀ k (hk : k < pages.length),
        out[k]? = doc[(pages.get ⟨k, hk⟩).toNat]? := by
  refine ⟨extractPages doc pages, ?_, ?_, ?_⟩
  · unfold split_pdf
    rw [firstBadPage_eq_none doc.length pages h]
  · simp [extractPages]
  · intro k hk
    exact getElem?_extractPages doc pages k hk h

theorem split_pdf_valid_output_witness :
    (∀ i ∈ ([0, 2] : List Int),
      0 ≤ i ∧ i < ((([10, 20, 30] : List Nat).length : Int))) ∧
    ∃ out, split_pdf ([10, 20, 30] : List Nat) [0, 2] = .ok out ∧
      out.length = ([0, 2] : List Int).length ∧
      ∀ k (hk : k < ([0, 2] : List Int).length),
        out[k]? = ([10, 20, 30] : List Nat)[(([0, 2] : List Int).get ⟨k, hk⟩).toNat]? :=
  ⟨by decide, split_pdf_valid_output ([10, 20, 30] : List Nat) [0, 2] (by decide)⟩

/-- Claim C5 counterexample: the range string "5-3" consists of an interval
token whose start exceeds its end, yet `parse_page_ranges` succeeds
(returning an empty index list) instead of failing with a ParseError. -/
theorem parse_page_ranges_inverted_interval_succeeds :
    parse_page_ranges "5-3" = some [] := by decide

/-- Claim C5 (amended): `parse_page_ranges` fails on a range string
containing a token that cannot be split into exactly two `int`-parsable
operands around `-`, or whose operand is non-numeric; an interval token
with start > end is not an error (it merely contributes no pages). -/
theorem parse_page_ranges_malformed_token_fails (s : String) (tok : List Char)
    (h1 : tok ∈ pySplit ',' s.data) (h2 : tokenMalformed (pyStrip tok) = true) :
    parse_page_ranges s = none := by
  unfold parse_page_ranges
  rw [parseAllTokens_eq_none (pySplit ',' s.data) tok h1
    (rangeTokenPages_eq_none_of_malformed _ h2)]
  rfl

theorem parse_page_ranges_malformed_token_fails_witness :
    (['x'] ∈ pySplit ',' "1,x".data ∧ tokenMalformed (pyStrip ['x']) = true) ∧
    parse_page_ranges "1,x" = none :=
  ⟨⟨by decide, by decide⟩,
    parse_page_ranges_malformed_token_fails "1,x" ['x'] (by decide) (by decide)⟩

/-- Claim C6: in multi-output mode, when the sub-ranges before position k
are all in bounds and the k-th sub-range contains an out-of-bounds index,
`split_pdf_multiple` raises at the k-th sub-range and the result records
exactly the files written for the earlier sub-ranges, which remain on disk
(no rollback). -/
theorem split_pdf_multiple_no_rollback {α : Type} [Inhabited α]
    (doc : List α) (s pre : String)
    (good : List (String × List Int)) (label : String) (pages : List Int)
    (rest : List (String × List Int))
    (hparse : parse_multiple_ranges s = some (good ++ (label, pages) :: rest))
    (hgood : ∀ pr ∈ good, ∀ i ∈ pr.2, 0 ≤ i ∧ i < (doc.length : Int))
    (hbad : ∃ i ∈ pages, i < 0 ∨ (doc.length : Int) ≤ i) :
    ∃ p, p ∈ pages ∧ (p < 0 ∨ (doc.length : Int) ≤ p) ∧
      split_pdf_multiple doc s pre = .failedAfter
        (good.map (fun pr =>
          (pre ++ "_paginas_" ++ pr.1 ++ ".pdf", extractPages doc pr.2)))
        (p + 1, doc.length) := by
  obtain ⟨p, hmem, hbadp, hgo⟩ :=
    splitMultiGo_failedAfter doc pre good label pages rest hgood hbad
  refine ⟨p, hmem, hbadp, ?_⟩
  unfold split_pdf_multiple
  rw [hparse]
  exact hgo

theorem split_pdf_multiple_no_rollback_witness :
    (∃ i ∈ ([4] : List Int),
      i < 0 ∨ ((([10, 20, 30] : List Nat).length : Int) ≤ i)) ∧
    ∃ p, p ∈ ([4] : List Int) ∧
      (p < 0 ∨ ((([10, 20, 30] : List Nat).length : Int) ≤ p)) ∧
      split_pdf_multiple ([10, 20, 30] : List Nat) "1-2,5" "out" = .failedAfter
        (([("1-2", [0, 1])] : List (String × List Int)).map (fun pr =>
          ("out" ++ "_paginas_" ++ pr.1 ++ ".pdf",
            extractPages ([10, 20, 30] : List Nat) pr.2)))
        (p + 1, ([10, 20, 30] : List Nat).length) :=
  ⟨⟨4, by decide, by decide⟩,
    split_pdf_multiple_no_rollback ([10, 20, 30] : List Nat) "1-2,5" "out"
      [("1-2", [0, 1])] "5" [4] [] (by decide) (by decide)
      ⟨4, by decide, by decide⟩⟩

/-- Claim C7 counterexample: on the 2-page document `[10, 20]`, the range
string "2,1" parses into sub-ranges that are pairwise non-overlapping and
together cover pages 1..2 (their indices are a permutation of `[0, 1]`),
yet concatenating the produced files' page sequences in sub-range order
gives `[20, 10]`, not the original sequence `[10, 20]`. -/
theorem split_pdf_multiple_roundtrip_cex :
    parse_multiple_ranges "2,1" = some [("2", [1]), ("1", [0])] ∧
    List.Perm [(1 : Int), 0] [0, 1] ∧
    split_pdf_multiple ([10, 20] : List Nat) "2,1" "d" =
      .ok [("d_paginas_2.pdf", [20]), ("d_paginas_1.pdf", [10])] ∧
    (([("d_paginas_2.pdf", [20]), ("d_paginas_1.pdf", [10])] :
      List (String × List Nat)).map Prod.snd).flatten ≠ [10, 20] := by
  refine ⟨by decide, by decide, rfl, by decide⟩

/-- Claim C7 (amended): concatenating in sub-range order the page sequences
of all files produced by `split_pdf_multiple` reconstructs the original
document whenever the concatenation of the sub-ranges' index lists is
exactly `[0, ..., N-1]`, i.e. the sub-ranges are non-overlapping, cover the
whole document, and are listed in ascending page order. -/
theorem split_pdf_multiple_roundtrip {α : Type} [Inhabited α]
    (doc : List α) (s pre : String) (rl : List (String × List Int))
    (hparse : parse_multiple_ranges s = some rl)
    (hflat : (rl.map Prod.snd).flatten =
      (List.range doc.length).map (fun (k : Nat) => (k : Int))) :
    ∃ ws, split_pdf_multiple doc s pre = .ok ws ∧
      (ws.map Prod.snd).flatten = doc := by
  have hvalid : ∀ pr ∈ rl, ∀ i ∈ pr.2, 0 ≤ i ∧ i < (doc.length : Int) := by
    intro pr hpr i hi
    have hmem : i ∈ (rl.map Prod.snd).flatten := by
      rw [List.mem_flatten]
      exact ⟨pr.2, List.mem_map_of_mem Prod.snd hpr, hi⟩
    rw [hflat] at hmem
    obtain ⟨k, hk, hki⟩ := List.mem_map.mp hmem
    subst hki
    have := List.mem_range.mp hk
    omega
  refine ⟨rl.map (fun pr =>
      (pre ++ "_paginas_" ++ pr.1 ++ ".pdf", extractPages doc pr.2)), ?_, ?_⟩
  · unfold split_pdf_multiple
    rw [hparse]
    exact splitMultiGo_ok_of_valid doc pre rl hvalid
  · rw [List.map_map]
    show (rl.map (fun pr : String × List Int =>
      extractPages doc pr.2)).flatten = doc
    have hstep : (rl.map (fun pr : String × List Int =>
        extractPages doc pr.2)).flatten =
        ((rl.map Prod.snd).flatten).map
          (fun p => doc.getD p.toNat default) := by
      rw [List.map_flatten, List.map_map]
      rfl
    rw [hstep, hflat]
    exact extractPages_range doc

theorem split_pdf_multiple_roundtrip_witness :
    ((([("1-2", [0, 1]), ("3", [2])] : List (String × List Int)).map
        Prod.snd).flatten =
      (List.range ([10, 20, 30] : List Nat).length).map
        (fun (k : Nat) => (k : Int))) ∧
    ∃ ws, split_pdf_multiple ([10, 20, 30] : List Nat) "1-2,3" "r" = .ok ws ∧
      (ws.map Prod.snd).flatten = [10, 20, 30] :=
  ⟨by decide, split_pdf_multiple_roundtrip ([10, 20, 30] : List Nat) "1-2,3" "r"
    [("1-2", [0, 1]), ("3", [2])] (by decide) (by decide)⟩

/-- Claim C8: every successful multi-output invocation names each output
file by concatenating the prefix, the fixed separator "_paginas_", the
sub-range's trimmed original token text, and ".pdf", and the list of files
written is in sub-range order. -/
theorem split_pdf_multiple_output_names {α : Type} [Inhabited α]
    (doc : List α) (s pre : String) (rl : List (String × List Int))
    (ws : List (String × List α))
    (hparse : parse_multiple_ranges s = some rl)
    (hok : split_pdf_multiple doc s pre = .ok ws) :
    ws.map Prod.fst =
      rl.map (fun pr => pre ++ "_paginas_" ++ pr.1 ++ ".pdf") := by
  unfold split_pdf_multiple at hok
  rw [hparse] at hok
  exact splitMultiGo_ok_names doc pre rl ws hok

theorem split_pdf_multiple_output_names_witness :
    split_pdf_multiple ([10, 20, 30] : List Nat) "1-2,3" "x" =
      .ok [("x_paginas_1-2.pdf", [10, 20]), ("x_paginas_3.pdf", [30])] ∧
    ([("x_paginas_1-2.pdf", [10, 20]), ("x_paginas_3.pdf", [30])] :
        List (String × List Nat)).map Prod.fst =
      ([("1-2", [0, 1]), ("3", [2])] : List (String × List Int)).map
        (fun pr => "x" ++ "_paginas_" ++ pr.1 ++ ".pdf") :=
  ⟨rfl, split_pdf_multiple_output_names ([10, 20, 30] : List Nat) "1-2,3" "x"
    [("1-2", [0, 1]), ("3", [2])]
    [("x_paginas_1-2.pdf", [10, 20]), ("x_paginas_3.pdf", [30])]
    (by decide) rfl⟩

/-- Claim C9: an interval token whose integer operands satisfy start > end
parses successfully in both parsers and contributes an empty index list,
because the inclusive enumeration from start to end is empty; in particular
on "9-4". -/
theorem inverted_interval_empty_contribution (t x y : List Char) (a b : Int)
    (h1 : '-' ∈ t) (h2 : pySplit '-' t = [x, y])
    (h3 : pyInt? x = some a) (h4 : pyInt? y = some b) (h5 : b < a) :
    (rangeTokenPages t = some [] ∧ multiTokenPages t = some []) ∧
    parse_page_ranges "9-4" = some [] ∧
    parse_multiple_ranges "9-4" = some [("9-4", [])] := by
  refine ⟨?_, by decide, by decide⟩
  have hr : rangeTokenPages t = some [] := by
    unfold rangeTokenPages
    rw [if_pos h1]
    split
    · rename_i s1 s2 heq
      rw [heq] at h2
      injection h2 with e1 e2
      injection e2 with e2 _
      subst e1
      subst e2
      rw [h3, h4]
      show some ((intRangeIncl a b).map (fun v => v - 1)) = some []
      rw [intRangeIncl_eq_nil a b h5]
      rfl
    · rename_i hne
      exact absurd h2 (hne x y)
  exact ⟨hr, hr⟩

theorem inverted_interval_empty_contribution_witness :
    ('-' ∈ (['7', '-', '2'] : List Char) ∧
      pySplit '-' ['7', '-', '2'] = [['7'], ['2']] ∧
      pyInt? ['7'] = some 7 ∧ pyInt? ['2'] = some 2 ∧ (2 : Int) < 7) ∧
    rangeTokenPages ['7', '-', '2'] = some [] :=
  ⟨⟨by decide, by decide, by decide, by decide, by decide⟩,
    (inverted_interval_empty_contribution ['7', '-', '2'] ['7'] ['2'] 7 2
      (by decide) (by decide) (by decide) (by decide) (by decide)).1.1⟩

/-- Claim C10: whenever the multi parser succeeds, `parse_page_ranges` is
exactly the sorted deduplication of the concatenation of the per-token
index lists produced by `parse_multiple_ranges`. -/
theorem parse_page_ranges_refines_parse_multiple_ranges (s : String)
    (rl : List (String × List Int)) (h : parse_multiple_ranges s = some rl) :
    parse_page_ranges s = some (sortDedup (rl.map Prod.snd).flatten) ∧
    (sortDedup (rl.map Prod.snd).flatten).Pairwise (· < ·) ∧
    ∀ x : Int, x ∈ sortDedup (rl.map Prod.snd).flatten ↔
      x ∈ (rl.map Prod.snd).flatten := by
  refine ⟨?_, pairwise_sortDedup _, fun x => mem_sortDedup x _⟩
  unfold parse_page_ranges
  rw [parseAllTokens_of_parseTokensMulti (pySplit ',' s.data) rl h]
  rfl

theorem parse_page_ranges_refines_parse_multiple_ranges_witness :
    parse_multiple_ranges "3-4,1-2,2" =
      some [("3-4", [2, 3]), ("1-2", [0, 1]), ("2", [1])] ∧
    parse_page_ranges "3-4,1-2,2" =
      some (sortDedup (([("3-4", [2, 3]), ("1-2", [0, 1]), ("2", [1])] :
        List (String × List Int)).map Prod.snd).flatten) :=
  ⟨by decide, (parse_page_ranges_refines_parse_multiple_ranges "3-4,1-2,2"
    [("3-4", [2, 3]), ("1-2", [0, 1]), ("2", [1])] (by decide)).1⟩

end SplitPdf
